import Mathlib

/-!
# Verification of the Tesseract Descartes railed kinematics sampler

Shallow embedding of
`tesseract_motion_planners/descartes/impl/descartes_railed_sampler.hpp`
(class `DescartesRailedSampler`).  Scalars (`FloatType`/`double`) are
modelled as `ℚ`; rigid transforms (`Eigen::Isometry3d`) are an abstract
type `P` equipped with composition, inverse and a translation-norm
function, since no property below depends on the concrete pose algebra.
Fallible collaborator calls (`calcFwdKin`, `calcInvKin`) return `Option`.
The flat `std::vector<FloatType>` solution buffer is modelled as a list of
full joint solutions (each one the scalar block a single
`solution_set.insert` call contributes); flat-buffer facts are recovered
through the per-entry lengths.  Collaborator invocations are counted in
the state so that call-ordering / call-count properties are statable.
-/

namespace TesseractRailed

/-- Abstract pose algebra standing for `Eigen::Isometry3d`: composition,
inverse, and the norm of the translation part (`.translation().norm()`).
The sampler only ever feeds poses through these three operations. -/
structure Geom (P : Type) where
  comp : P → P → P
  inv : P → P
  transNorm : P → ℚ

/-- `descartes_light::CollisionInterface`: `validate(vertex, dof)` and
`distance(vertex, size)`. -/
structure CollisionInterface where
  validate : List ℚ → ℕ → Bool
  distance : List ℚ → ℕ → ℚ

/-- The construction-time configuration of `DescartesRailedSampler`
(the fields set by the constructor, lines 42-69 of the source).
`railed_calcFwdKin` and `robot_calcInvKin` are the two kinematics
collaborators; `none` models a `false` return of the C++ call. -/
structure DescartesRailedSampler (P : Type) where
  geom : Geom P
  tool_pose : P
  tool_pose_sampler : P → List P
  railed_numJoints : ℕ
  robot_numJoints : ℕ
  railed_calcFwdKin : List ℚ → Option P
  robot_calcInvKin : P → List ℚ → Option (List ℚ)
  collision : Option CollisionInterface
  world_to_railed_base : P
  railed_limits : List (ℚ × ℚ)
  railed_sample_resolution : List ℚ
  robot_tcp : P
  robot_reach : ℚ
  allow_collision : Bool
  is_valid : List ℚ → Bool

variable {P : Type}

/-- `dof_ = railed_kinematics_->numJoints() + robot_kinematics_->numJoints()`. -/
def DescartesRailedSampler.dof (S : DescartesRailedSampler P) : ℕ :=
  S.railed_numJoints + S.robot_numJoints

/-- `ik_seed_ = Eigen::VectorXd::Zero(dof_)` (note: sized `dof_`, not the
robot DOF, exactly as in the constructor). -/
def DescartesRailedSampler.ik_seed (S : DescartesRailedSampler P) : List ℚ :=
  List.replicate S.dof 0

/-- `std::numeric_limits<double>::min()`: the smallest *positive* normal
double, `2^(-1022)`.  (Not the most negative double.)  Written as an
explicit numeral so that kernel evaluation of concrete runs is cheap;
`dblMin_eq` below records that the numeral is `1 / 2 ^ 1022`. -/
def dblMin : ℚ := 1 / 44942328371557897693232629769725618340449424473557664318357520289433168951375240783177119330601884005280028469967848339414697442203604155623211857659868531094441973356216371319075554900311523529863270738021251442209537670585615720368478277635206809290837627671146574559986811484619929076208839082406056034304

/-- Per-invocation working state threaded by reference through the search:
the flat solution buffer (as a list of inserted blocks), the best-distance
tracker, plus instrumentation counters for collaborator invocations.
`absentDistanceQueries` counts executions of `collision_->distance` while
`collision_` is null (a null dereference in the source). -/
structure SampleState where
  solution_set : List (List ℚ)
  distance : ℚ
  fkCalls : ℕ
  ikCalls : ℕ
  absentDistanceQueries : ℕ
deriving DecidableEq

/-- Eigen 3.3 `VectorXd::LinSpaced(cnt, low, high)` in exact arithmetic:
`cnt` evenly spaced values; for `cnt ≥ 2` element `i` is
`low + i*(high-low)/(cnt-1)` (the endpoints are exact), for `cnt = 1` the
single element is `low`, for `cnt = 0` the vector is empty. -/
def linSpaced (cnt : ℕ) (low high : ℚ) : List ℚ :=
  if cnt = 1 then [low]
  else (List.range cnt).map fun i : ℕ =>
    low + (i : ℚ) * ((high - low) / ((cnt : ℚ) - 1))

/-- `int cnt = std::ceil(std::abs(limits(dof,1) - limits(dof,0)) / resolution(dof))`
(line 80). -/
def gridCount (low high res : ℚ) : ℤ := ⌈|high - low| / res⌉

/-- The `dof_range` grid built by `sample` (lines 76-82): one
`LinSpaced(cnt, low, high)` sequence per rail DOF.  A non-positive `cnt`
is modelled as the empty sequence (in the source a negative count is an
unchecked Eigen size). -/
def dof_range (limits : List (ℚ × ℚ)) (res : List ℚ) : List (List ℚ) :=
  List.zipWith (fun l r => linSpaced (gridCount l.1 l.2 r).toNat l.1 l.2) limits res

/-- `isCollisionFree` (lines 99-106): a null collision interface validates
everything. -/
def isCollisionFree (S : DescartesRailedSampler P) (vertex : List ℚ) : Bool :=
  match S.collision with
  | none => true
  | some c => c.validate vertex S.dof

/-- One branch `i` of the packed IK result: `robot_dof` consecutive
scalars starting at `robot_dof * i` (line 154). -/
def branchAt (robot_dof : ℕ) (packed : List ℚ) (i : ℕ) : List ℚ :=
  (packed.drop (robot_dof * i)).take robot_dof

/-- Body of the per-branch loop of `ikAt` (lines 152-179) for one branch:
assemble `full_sol`, test `is_valid_`, then either the collect-all append
(lines 163-168) or the best-only front insert guarded by strict distance
improvement (lines 169-178).  In the best branch the source dereferences
`collision_` unconditionally; a null `collision_` is recorded in
`absentDistanceQueries`. -/
def ikAtBranch (S : DescartesRailedSampler P) (railed_pose : List ℚ)
    (packed : List ℚ) (get_best_solution : Bool) (st : SampleState) (i : ℕ) :
    SampleState :=
  let full_sol := railed_pose ++ branchAt S.robot_numJoints packed i
  if ¬ S.is_valid full_sol then st
  else if ¬ get_best_solution then
    if isCollisionFree S full_sol then
      { st with solution_set := st.solution_set ++ [full_sol] }
    else st
  else
    match S.collision with
    | none => { st with absentDistanceQueries := st.absentDistanceQueries + 1 }
    | some c =>
      let cur_distance := c.distance full_sol full_sol.length
      if cur_distance > st.distance then
        { st with distance := cur_distance,
                  solution_set := full_sol :: st.solution_set }
      else st

/-- `ikAt` (lines 130-182): rail forward kinematics, the reach pre-filter,
robot inverse kinematics, then the per-branch loop.  Counters record each
`calcFwdKin` / `calcInvKin` invocation.  (The bool the source returns is
ignored by its only caller `nested_ik`, so only the state is returned.) -/
def ikAt (S : DescartesRailedSampler P) (p : P) (railed_pose : List ℚ)
    (get_best_solution : Bool) (st : SampleState) : SampleState :=
  let st := { st with fkCalls := st.fkCalls + 1 }
  match S.railed_calcFwdKin railed_pose with
  | none => st
  | some rail_tf =>
    let robot_tool_pose := S.geom.comp (S.geom.inv rail_tf) p
    if S.geom.transNorm robot_tool_pose > S.robot_reach then st
    else
      let st := { st with ikCalls := st.ikCalls + 1 }
      match S.robot_calcInvKin robot_tool_pose S.ik_seed with
      | none => st
      | some robot_solution_set =>
        let num_sols := robot_solution_set.length / S.robot_numJoints
        (List.range num_sols).foldl
          (ikAtBranch S railed_pose robot_solution_set get_best_solution) st

/-- `nested_ik` (lines 108-128): depth-first enumeration of the remaining
per-DOF grids.  `loop_level` becomes the number of grids already consumed;
`sample_pose` is the assigned prefix of the rail sample point.  When all
grids are consumed (`loop_level >= numJoints`) the leaf calls `ikAt`. -/
def nested_ik (S : DescartesRailedSampler P) (dr : List (List ℚ)) (p : P)
    (sample_pose : List ℚ) (get_best_solution : Bool) (st : SampleState) :
    SampleState :=
  match dr with
  | [] => ikAt S p sample_pose get_best_solution st
  | range :: rest =>
    range.foldl
      (fun st v => nested_ik S rest p (sample_pose ++ [v]) get_best_solution st)
      st

/-- `world_to_railed_base_.inverse() * tool_poses[i] * robot_tcp_.inverse()`
(lines 88 and 194). -/
def toRailFrame (S : DescartesRailedSampler P) (tp : P) : P :=
  S.geom.comp (S.geom.comp (S.geom.inv S.world_to_railed_base) tp)
    (S.geom.inv S.robot_tcp)

/-- The collect-all pass of `sample` (lines 85-91): for each tool-pose
candidate, transform into the rail frame and run the enumeration with
`get_best_solution = false`. -/
def samplePrimary (S : DescartesRailedSampler P) (tool_poses : List P)
    (dr : List (List ℚ)) (st : SampleState) : SampleState :=
  tool_poses.foldl
    (fun st tp => nested_ik S dr (toRailFrame S tp) [] false st) st

/-- `getBestSolution` (lines 184-200): reset the local best distance to
`std::numeric_limits<double>::min()` and rerun the same enumeration with
`get_best_solution = true`. -/
def getBestSolution (S : DescartesRailedSampler P) (tool_poses : List P)
    (dr : List (List ℚ)) (st : SampleState) : SampleState :=
  tool_poses.foldl
    (fun st tp => nested_ik S dr (toRailFrame S tp) [] true st)
    { st with distance := dblMin }

/-- Initial per-invocation state: `sample`'s local
`double distance = std::numeric_limits<double>::min()` (line 74), the
caller-supplied solution buffer, and zeroed instrumentation counters. -/
def initState (solution_set : List (List ℚ)) : SampleState :=
  { solution_set := solution_set, distance := dblMin,
    fkCalls := 0, ikCalls := 0, absentDistanceQueries := 0 }

/-- `sample` (lines 71-97): build the grid, obtain the tool-pose
candidates, run the collect-all pass, run `getBestSolution` iff the buffer
is empty and `allow_collision_` is set, return `!solution_set.empty()`. -/
def sample (S : DescartesRailedSampler P) (solution_set : List (List ℚ)) :
    Bool × SampleState :=
  let dr := dof_range S.railed_limits S.railed_sample_resolution
  let tool_poses := S.tool_pose_sampler S.tool_pose
  let st := samplePrimary S tool_poses dr (initState solution_set)
  let st :=
    if st.solution_set.isEmpty && S.allow_collision then
      getBestSolution S tool_poses dr st
    else st
  (!st.solution_set.isEmpty, st)

/-- The clearance the best-only pass would read for a full solution
(`collision_->distance(full_sol.data(), full_sol.size())`); `0` as a
placeholder when the collision interface is null (in that situation the
source dereferences a null pointer; the model counts such events in
`absentDistanceQueries` instead, see `ikAtBranch`). -/
def clearance (S : DescartesRailedSampler P) (sol : List ℚ) : ℚ :=
  match S.collision with
  | none => 0
  | some c => c.distance sol sol.length

/-! ## Concrete test fixtures

Small closed instances of the sampler used to evaluate the model on
concrete inputs.  Poses carry no information (`P := Unit`); the rail has
one joint spanning `[1/2, 1]` at resolution `1/4`, giving the grid
`[1/2, 1]`, and the robot has one joint with a single IK branch `[0]`,
so every full joint solution is `[rail, 0]`. -/

def unitGeom : Geom Unit :=
  { comp := fun _ _ => (), inv := fun _ => (), transNorm := fun _ => 0 }

/-- Base fixture: every rail point reachable, one IK branch, every
solution valid, collisions tolerated. -/
def cfgBase : DescartesRailedSampler Unit :=
  { geom := unitGeom
    tool_pose := ()
    tool_pose_sampler := fun p => [p]
    railed_numJoints := 1
    robot_numJoints := 1
    railed_calcFwdKin := fun _ => some ()
    robot_calcInvKin := fun _ _ => some [0]
    collision := some { validate := fun _ _ => true, distance := fun _ _ => 0 }
    world_to_railed_base := ()
    railed_limits := [(1/2, 1)]
    railed_sample_resolution := [1/4]
    robot_tcp := ()
    robot_reach := 1
    allow_collision := true
    is_valid := fun _ => true }

/-- Scenario 3 of the spec: every branch collides
(`validate` = false) and the clearances are negative: `-1/10` at
rail `1/2` and `-1/20` at rail `1`. -/
def cfgC1 : DescartesRailedSampler Unit :=
  { cfgBase with
    collision := some
      { validate := fun _ _ => false
        distance := fun sol _ => if sol.head? = some (1/2) then -1/10 else -1/20 } }

/-- Every branch collides; positive clearances `1` at rail `1/2` and `2`
at rail `1`, so the fallback accepts twice in succession. -/
def cfgC2 : DescartesRailedSampler Unit :=
  { cfgBase with
    collision := some
      { validate := fun _ _ => false
        distance := fun sol _ => if sol.head? = some (1/2) then 1 else 2 } }

/-- Inverted rail bounds (`low = 1 > 0 = high`); forward kinematics
always unreachable so the run only exercises the grid enumeration. -/
def cfgC4 : DescartesRailedSampler Unit :=
  { cfgBase with
    railed_limits := [(1, 0)]
    railed_sample_resolution := [1/2]
    allow_collision := false
    railed_calcFwdKin := fun _ => none }

/-- No collision interface, collisions tolerated, every assembled
solution rejected by the validity predicate: the collect-all pass
retains nothing, so the best-only fallback pass runs. -/
def cfgC5 : DescartesRailedSampler Unit :=
  { cfgBase with collision := none, is_valid := fun _ => false }

/-- A run in which the collect-all pass retains solutions. -/
def cfgC6 : DescartesRailedSampler Unit := cfgBase

/-- The robot-frame pose has translation norm `5`, above the reach `1`. -/
def cfgC7 : DescartesRailedSampler Unit :=
  { cfgBase with geom := { unitGeom with transNorm := fun _ => 5 } }

/-- A run with successful, valid, collision-free branches. -/
def cfgC8 : DescartesRailedSampler Unit := cfgBase

/-- Fixture for the pre-populated-buffer run. -/
def cfgC10 : DescartesRailedSampler Unit := cfgBase

/-- Two rail DOF with grid sizes `3` (`[0,1]` at resolution `2/5`) and
`4` (`[0,1]` at resolution `3/10`), and two tool-pose candidates. -/
def cfgC9 : DescartesRailedSampler Unit :=
  { cfgBase with
    tool_pose_sampler := fun p => [p, p]
    railed_numJoints := 2
    railed_limits := [(0, 1), (0, 1)]
    railed_sample_resolution := [2/5, 3/10]
    railed_calcFwdKin := fun _ => none
    allow_collision := false }

/-! ## Basic facts -/

theorem dblMin_eq : dblMin = 1 / 2 ^ 1022 := by norm_num [dblMin]

theorem dblMin_pos : 0 < dblMin := by rw [dblMin_eq]; positivity

/-! ## Frame lemmas: which fields each step can touch -/

theorem ikAtBranch_fkCalls (S : DescartesRailedSampler P) (rp packed : List ℚ)
    (b : Bool) (st : SampleState) (i : ℕ) :
    (ikAtBranch S rp packed b st i).fkCalls = st.fkCalls := by
  unfold ikAtBranch
  dsimp only
  repeat' split
  all_goals rfl

theorem ikAtBranch_ikCalls (S : DescartesRailedSampler P) (rp packed : List ℚ)
    (b : Bool) (st : SampleState) (i : ℕ) :
    (ikAtBranch S rp packed b st i).ikCalls = st.ikCalls := by
  unfold ikAtBranch
  dsimp only
  repeat' split
  all_goals rfl

theorem ikAtBranch_collect_absent (S : DescartesRailedSampler P)
    (rp packed : List ℚ) (st : SampleState) (i : ℕ) :
    (ikAtBranch S rp packed false st i).absentDistanceQueries =
      st.absentDistanceQueries := by
  unfold ikAtBranch
  dsimp only
  repeat' split
  all_goals first | rfl | simp_all

/-! ## Generic fold helpers -/

/-- A predicate preserved by every step of a fold is preserved by the fold. -/
theorem foldl_preserve {α β : Type} (Q : α → Prop) (f : α → β → α)
    (h : ∀ a b, Q a → Q (f a b)) :
    ∀ (l : List β) (a : α), Q a → Q (l.foldl f a) := by
  intro l
  induction l with
  | nil => intro a ha; exact ha
  | cons b t ih => intro a ha; exact ih (f a b) (h a b ha)

/-- A fold each of whose steps adds the constant `c` to the counter `g`
adds `l.length * c` in total. -/
theorem foldl_counter {α β : Type} (g : α → ℕ) (f : α → β → α) (c : ℕ)
    (h : ∀ a b, g (f a b) = g a + c) :
    ∀ (l : List β) (a : α), g (l.foldl f a) = g a + l.length * c := by
  intro l
  induction l with
  | nil => intro a; simp
  | cons b t ih =>
    intro a
    simp only [List.foldl_cons, List.length_cons, ih (f a b), h a b]
    ring

/-! ## Rail Grid Builder (C3, C4) -/

/-- For a grid count of at least two, `linSpaced` element `i` is
`low + i * (high - low) / (cnt - 1)`. -/
theorem linSpaced_getElem? (cnt : ℕ) (low high : ℚ) (h2 : 2 ≤ cnt)
    (i : ℕ) (hi : i < cnt) :
    (linSpaced cnt low high)[i]? =
      some (low + i * ((high - low) / ((cnt : ℚ) - 1))) := by
  have hne : cnt ≠ 1 := by omega
  simp only [linSpaced, if_neg hne, List.getElem?_map, List.getElem?_range hi]
  rfl

theorem linSpaced_length (cnt : ℕ) (low high : ℚ) (h2 : 2 ≤ cnt) :
    (linSpaced cnt low high).length = cnt := by
  have hne : cnt ≠ 1 := by omega
  simp only [linSpaced, if_neg hne, List.length_map, List.length_range]

theorem linSpaced_head? (cnt : ℕ) (low high : ℚ) (h2 : 2 ≤ cnt) :
    (linSpaced cnt low high).head? = some low := by
  rw [List.head?_eq_getElem?, linSpaced_getElem? cnt low high h2 0 (by omega)]
  norm_num

theorem linSpaced_getLast? (cnt : ℕ) (low high : ℚ) (h2 : 2 ≤ cnt) :
    (linSpaced cnt low high).getLast? = some high := by
  rw [List.getLast?_eq_getElem?, linSpaced_length cnt low high h2,
    linSpaced_getElem? cnt low high h2 (cnt - 1) (by omega)]
  have hcast : ((cnt - 1 : ℕ) : ℚ) = (cnt : ℚ) - 1 := by
    have : 1 ≤ cnt := by omega
    push_cast [this]
    ring
  have hne : ((cnt : ℚ) - 1) ≠ 0 := by
    have : (2 : ℚ) ≤ (cnt : ℚ) := by exact_mod_cast h2
    intro h
    nlinarith
  rw [hcast]
  congr 1
  field_simp

theorem linSpaced_pairwise_le (cnt : ℕ) (low high : ℚ) (hlh : low ≤ high)
    (h2 : 2 ≤ cnt) : (linSpaced cnt low high).Pairwise (· ≤ ·) := by
  have hne : cnt ≠ 1 := by omega
  rw [linSpaced, if_neg hne]
  refine (List.pairwise_lt_range cnt).map _ (fun a b hab => ?_)
  have hstep : 0 ≤ (high - low) / ((cnt : ℚ) - 1) := by
    have h2q : (2 : ℚ) ≤ (cnt : ℚ) := by exact_mod_cast h2
    apply div_nonneg <;> nlinarith
  have : (a : ℚ) ≤ (b : ℚ) := by exact_mod_cast hab.le
  nlinarith

theorem linSpaced_pairwise_ge (cnt : ℕ) (low high : ℚ) (hlh : high ≤ low)
    (h2 : 2 ≤ cnt) : (linSpaced cnt low high).Pairwise (· ≥ ·) := by
  have hne : cnt ≠ 1 := by omega
  rw [linSpaced, if_neg hne]
  refine (List.pairwise_lt_range cnt).map _ (fun a b hab => ?_)
  have hstep : (high - low) / ((cnt : ℚ) - 1) ≤ 0 := by
    have h2q : (2 : ℚ) ≤ (cnt : ℚ) := by exact_mod_cast h2
    apply div_nonpos_of_nonpos_of_nonneg <;> nlinarith
  have : (a : ℚ) ≤ (b : ℚ) := by exact_mod_cast hab.le
  simp only [ge_iff_le]
  nlinarith

/-- Variant of `foldl_preserve` that hands the step the membership of its
element. -/
theorem foldl_preserve_mem {α β : Type} (Q : α → Prop) (f : α → β → α) :
    ∀ (l : List β), (∀ a b, b ∈ l → Q a → Q (f a b)) →
    ∀ a, Q a → Q (l.foldl f a) := by
  intro l
  induction l with
  | nil => intro _ a ha; exact ha
  | cons x t ih =>
    intro h a ha
    exact ih (fun a b hb hq => h a b (List.mem_cons_of_mem x hb) hq) (f a x)
      (h a x (List.mem_cons_self x t) ha)

/-- A fold each of whose steps only appends to the solution buffer
appends overall. -/
theorem foldl_append_sols {β : Type} (f : SampleState → β → SampleState)
    (h : ∀ a b, ∃ d, (f a b).solution_set = a.solution_set ++ d) :
    ∀ (l : List β) (a : SampleState),
      ∃ d, (l.foldl f a).solution_set = a.solution_set ++ d := by
  intro l
  induction l with
  | nil => intro a; exact ⟨[], by simp⟩
  | cons x t ih =>
    intro a
    obtain ⟨d1, hd1⟩ := h a x
    obtain ⟨d2, hd2⟩ := ih (f a x)
    exact ⟨d1 ++ d2, by rw [List.foldl_cons, hd2, hd1, List.append_assoc]⟩

/-! ## Generic preservation of buffer/tracker properties -/

/-- Preservation of a property of the solution buffer and the distance
tracker through one `ikAt` step: the counter updates cannot disturb it,
so it suffices that every per-branch step preserves it. -/
theorem ikAt_preserve (Q : List (List ℚ) → ℚ → Prop)
    (S : DescartesRailedSampler P) (p : P) (sp : List ℚ) (b : Bool)
    (hbr : ∀ packed st i, i < packed.length / S.robot_numJoints →
      Q st.solution_set st.distance →
      Q (ikAtBranch S sp packed b st i).solution_set
        (ikAtBranch S sp packed b st i).distance) :
    ∀ st, Q st.solution_set st.distance →
      Q (ikAt S p sp b st).solution_set (ikAt S p sp b st).distance := by
  intro st hq
  unfold ikAt
  dsimp only
  split
  · exact hq
  · split
    · exact hq
    · split
      · exact hq
      · rename_i packed hpk
        apply foldl_preserve_mem (fun a => Q a.solution_set a.distance)
          (ikAtBranch S sp packed b)
          (List.range (packed.length / S.robot_numJoints))
          (fun a i hi ha => hbr packed a i (List.mem_range.1 hi) ha)
        exact hq

/-- Preservation through the whole enumeration; `n` is the rail sample
point length at the leaves (`sp.length + dr.length` is invariant). -/
theorem nested_ik_preserve (Q : List (List ℚ) → ℚ → Prop)
    (S : DescartesRailedSampler P) (p : P) (b : Bool) (n : ℕ)
    (hbr : ∀ sp, sp.length = n → ∀ packed st i,
      i < packed.length / S.robot_numJoints →
      Q st.solution_set st.distance →
      Q (ikAtBranch S sp packed b st i).solution_set
        (ikAtBranch S sp packed b st i).distance) :
    ∀ (dr : List (List ℚ)) (sp : List ℚ) (st : SampleState),
      sp.length + dr.length = n →
      Q st.solution_set st.distance →
      Q (nested_ik S dr p sp b st).solution_set
        (nested_ik S dr p sp b st).distance := by
  intro dr
  induction dr with
  | nil =>
    intro sp st hlen hq
    exact ikAt_preserve Q S p sp b (hbr sp (by simpa using hlen)) st hq
  | cons range rest ih =>
    intro sp st hlen hq
    simp only [nested_ik]
    apply foldl_preserve (fun a => Q a.solution_set a.distance)
      (fun a v => nested_ik S rest p (sp ++ [v]) b a)
      (fun a v ha => ih (sp ++ [v]) a (by simp at hlen ⊢; omega) ha)
      range st hq

theorem samplePrimary_preserve (Q : List (List ℚ) → ℚ → Prop)
    (S : DescartesRailedSampler P) (tool_poses : List P) (dr : List (List ℚ))
    (hbr : ∀ sp, sp.length = dr.length → ∀ packed st i,
      i < packed.length / S.robot_numJoints →
      Q st.solution_set st.distance →
      Q (ikAtBranch S sp packed false st i).solution_set
        (ikAtBranch S sp packed false st i).distance) :
    ∀ st, Q st.solution_set st.distance →
      Q (samplePrimary S tool_poses dr st).solution_set
        (samplePrimary S tool_poses dr st).distance := by
  intro st hq
  apply foldl_preserve (fun a => Q a.solution_set a.distance)
    (fun a tp => nested_ik S dr (toRailFrame S tp) [] false a)
    (fun a tp ha => nested_ik_preserve Q S (toRailFrame S tp) false dr.length
      hbr dr [] a (by simp) ha)
    tool_poses st hq

theorem getBestSolution_preserve (Q : List (List ℚ) → ℚ → Prop)
    (S : DescartesRailedSampler P) (tool_poses : List P) (dr : List (List ℚ))
    (hbr : ∀ sp, sp.length = dr.length → ∀ packed st i,
      i < packed.length / S.robot_numJoints →
      Q st.solution_set st.distance →
      Q (ikAtBranch S sp packed true st i).solution_set
        (ikAtBranch S sp packed true st i).distance) :
    ∀ st, Q st.solution_set dblMin →
      Q (getBestSolution S tool_poses dr st).solution_set
        (getBestSolution S tool_poses dr st).distance := by
  intro st hq
  unfold getBestSolution
  apply foldl_preserve (fun a => Q a.solution_set a.distance)
    (fun a tp => nested_ik S dr (toRailFrame S tp) [] true a)
    (fun a tp ha => nested_ik_preserve Q S (toRailFrame S tp) true dr.length
      hbr dr [] a (by simp) ha)
    tool_poses { st with distance := dblMin } hq

/-- Each branch of the packed IK result has exactly `robot_dof` scalars
(`num_sols = size / robot_dof` guarantees the slice is full). -/
theorem branchAt_length (rd : ℕ) (packed : List ℚ) (i : ℕ)
    (hi : i < packed.length / rd) : (branchAt rd packed i).length = rd := by
  rcases Nat.eq_zero_or_pos rd with hrd | hrd
  · subst hrd; simp [Nat.div_zero] at hi
  · have h1 : (i + 1) * rd ≤ (packed.length / rd) * rd :=
      Nat.mul_le_mul_right rd hi
    have h2 : (packed.length / rd) * rd ≤ packed.length :=
      Nat.div_mul_le_self _ _
    have h3 : (i + 1) * rd = i * rd + rd := Nat.succ_mul i rd
    have h4 : rd * i = i * rd := Nat.mul_comm rd i
    unfold branchAt
    rw [List.length_take, List.length_drop]
    omega

/-! ## The collect-all pass only appends -/

theorem ikAtBranch_collect_append (S : DescartesRailedSampler P)
    (rp packed : List ℚ) (st : SampleState) (i : ℕ) :
    ∃ d, (ikAtBranch S rp packed false st i).solution_set =
      st.solution_set ++ d := by
  unfold ikAtBranch
  dsimp only
  split
  · exact ⟨[], by simp⟩
  · split
    · split
      · exact ⟨[rp ++ branchAt S.robot_numJoints packed i], rfl⟩
      · exact ⟨[], by simp⟩
    · simp_all

theorem ikAt_collect_append (S : DescartesRailedSampler P) (p : P)
    (rp : List ℚ) (st : SampleState) :
    ∃ d, (ikAt S p rp false st).solution_set = st.solution_set ++ d := by
  unfold ikAt
  dsimp only
  split
  · exact ⟨[], by simp⟩
  · split
    · exact ⟨[], by simp⟩
    · split
      · exact ⟨[], by simp⟩
      · rename_i packed hpk
        exact foldl_append_sols (ikAtBranch S rp packed false)
          (ikAtBranch_collect_append S rp packed) _ _

theorem nested_ik_collect_append (S : DescartesRailedSampler P) (p : P) :
    ∀ (dr : List (List ℚ)) (sp : List ℚ) (st : SampleState),
    ∃ d, (nested_ik S dr p sp false st).solution_set =
      st.solution_set ++ d := by
  intro dr
  induction dr with
  | nil => intro sp st; exact ikAt_collect_append S p sp st
  | cons range rest ih =>
    intro sp st
    exact foldl_append_sols _ (fun a v => ih (sp ++ [v]) a) range st

theorem samplePrimary_append (S : DescartesRailedSampler P)
    (tool_poses : List P) (dr : List (List ℚ)) (st : SampleState) :
    ∃ d, (samplePrimary S tool_poses dr st).solution_set =
      st.solution_set ++ d :=
  foldl_append_sols _
    (fun a tp => nested_ik_collect_append S (toRailFrame S tp) dr [] a)
    tool_poses st

/-! ## Collaborator invocation counting -/

/-- `ikAt` invokes the rail forward-kinematics collaborator exactly once,
on every control path. -/
theorem ikAt_fkCalls (S : DescartesRailedSampler P) (p : P) (rp : List ℚ)
    (b : Bool) (st : SampleState) :
    (ikAt S p rp b st).fkCalls = st.fkCalls + 1 := by
  unfold ikAt
  dsimp only
  split
  · rfl
  · split
    · rfl
    · split
      · rfl
      · rename_i packed hpk
        apply foldl_preserve (fun a => a.fkCalls = st.fkCalls + 1)
          (ikAtBranch S rp packed b)
          (fun a i ha => by
            show (ikAtBranch S rp packed b a i).fkCalls = st.fkCalls + 1
            rw [ikAtBranch_fkCalls]; exact ha)
        rfl

/-- The enumeration invokes rail forward kinematics once per element of
the Cartesian product of the per-DOF grids (whatever the mode). -/
theorem nested_ik_fkCalls (S : DescartesRailedSampler P) (p : P) (b : Bool) :
    ∀ (dr : List (List ℚ)) (sp : List ℚ) (st : SampleState),
    (nested_ik S dr p sp b st).fkCalls =
      st.fkCalls + (dr.map List.length).prod := by
  intro dr
  induction dr with
  | nil => intro sp st; simp [nested_ik, ikAt_fkCalls]
  | cons range rest ih =>
    intro sp st
    have h := foldl_counter SampleState.fkCalls
      (fun a v => nested_ik S rest p (sp ++ [v]) b a)
      ((rest.map List.length).prod) (fun a v => ih (sp ++ [v]) a) range st
    simp only [nested_ik, h, List.map_cons, List.prod_cons]

theorem samplePrimary_fkCalls (S : DescartesRailedSampler P)
    (tool_poses : List P) (dr : List (List ℚ)) (st : SampleState) :
    (samplePrimary S tool_poses dr st).fkCalls =
      st.fkCalls + tool_poses.length * (dr.map List.length).prod :=
  foldl_counter SampleState.fkCalls _ _
    (fun a tp => nested_ik_fkCalls S (toRailFrame S tp) false dr [] a)
    tool_poses st

/-- C3 (amended): for every rail DOF `i` with bounds `[lo, hi]`,
`lo ≤ hi`, and resolution `r` whose computed count
`ceil(|hi - lo| / r)` is at least `2`, the built grid sequence has
exactly that many elements, its first element is `lo`, its last element
is `hi`, and it is monotonically non-decreasing.  (The claim as stated
fails when the count is `0` or `1`, see the counterexample.) -/
theorem dof_range_grid_spec (limits : List (ℚ × ℚ)) (res : List ℚ) (i : ℕ)
    (lo hi r : ℚ) (hl : limits[i]? = some (lo, hi)) (hr : res[i]? = some r)
    (hlh : lo ≤ hi) (h2 : 2 ≤ (gridCount lo hi r).toNat) :
    ∃ g, (dof_range limits res)[i]? = some g ∧
      g.length = (gridCount lo hi r).toNat ∧
      g.head? = some lo ∧ g.getLast? = some hi ∧ g.Pairwise (· ≤ ·) := by
  refine ⟨linSpaced (gridCount lo hi r).toNat lo hi, ?_,
    linSpaced_length _ _ _ h2, linSpaced_head? _ _ _ h2,
    linSpaced_getLast? _ _ _ h2, linSpaced_pairwise_le _ _ _ hlh h2⟩
  simp [dof_range, List.getElem?_zipWith', hl, hr]

/-- Witness for `dof_range_grid_spec`: bounds `[0, 1]`, resolution `2/5`,
count `3`. -/
theorem dof_range_grid_spec_witness :
    ([((0:ℚ), 1)])[0]? = some (0, 1) ∧ ([(2/5 : ℚ)])[0]? = some (2/5) ∧
    (0:ℚ) ≤ 1 ∧ 2 ≤ (gridCount 0 1 (2/5)).toNat ∧
    (∃ g, (dof_range [((0:ℚ), 1)] [2/5])[0]? = some g ∧
      g.length = (gridCount 0 1 (2/5)).toNat ∧
      g.head? = some 0 ∧ g.getLast? = some 1 ∧ g.Pairwise (· ≤ ·)) :=
  ⟨rfl, rfl, by norm_num, by with_unfolding_all decide,
    dof_range_grid_spec [((0:ℚ), 1)] [2/5] 0 0 1 (2/5) rfl rfl (by norm_num)
      (by with_unfolding_all decide)⟩

/-- Counterexample to C3 as stated: bounds `[0, 1]` with resolution `2`
give count `ceil(1/2) = 1`, and `LinSpaced(1, 0, 1)` is the single
element `0 = lo`, so the last element of the grid is `0`, not the upper
bound `1`. -/
theorem dof_range_count_one_cex :
    (gridCount 0 1 2).toNat = 1 ∧
    dof_range [((0:ℚ), 1)] [2] = [[0]] ∧
    (linSpaced (gridCount 0 1 2).toNat 0 1).getLast? ≠ some 1 := by
  with_unfolding_all decide

/-- Counterexample to C4 as stated: the source performs no validation of
the rail limits or the sample resolution.  With inverted bounds
`low = 1 > 0 = high` and resolution `1/2` the sampling operation does
not fail: it builds the (decreasing) grid `[1, 0]`, runs the grid
enumeration (the rail forward-kinematics collaborator is invoked twice),
and returns the ordinary negative result `false`. -/
theorem no_entry_validation_cex :
    dof_range [((1:ℚ), 0)] [1/2] = [[1, 0]] ∧
    (sample cfgC4 []).snd.fkCalls = 2 ∧
    (sample cfgC4 []).fst = false := by
  with_unfolding_all decide

/-- C4 (amended): no configuration validation exists.  With inverted
bounds (`hi < lo`) and a count of at least `2` the grid is still built —
`ceil(|hi - lo| / r)` elements from `lo` down to `hi`, monotonically
non-increasing — and the enumeration proceeds over it; no error is
signalled anywhere (the sampling operation is total). -/
theorem inverted_bounds_grid_processed (limits : List (ℚ × ℚ))
    (res : List ℚ) (i : ℕ) (lo hi r : ℚ) (hl : limits[i]? = some (lo, hi))
    (hr : res[i]? = some r) (hlh : hi < lo)
    (h2 : 2 ≤ (gridCount lo hi r).toNat) :
    ∃ g, (dof_range limits res)[i]? = some g ∧
      g.length = (gridCount lo hi r).toNat ∧
      g.head? = some lo ∧ g.getLast? = some hi ∧ g.Pairwise (· ≥ ·) := by
  refine ⟨linSpaced (gridCount lo hi r).toNat lo hi, ?_,
    linSpaced_length _ _ _ h2, linSpaced_head? _ _ _ h2,
    linSpaced_getLast? _ _ _ h2, linSpaced_pairwise_ge _ _ _ hlh.le h2⟩
  simp [dof_range, List.getElem?_zipWith', hl, hr]

/-- Witness for `inverted_bounds_grid_processed`: bounds `(1, 0)`,
resolution `1/2`, count `2`, grid `[1, 0]`. -/
theorem inverted_bounds_grid_processed_witness :
    ([((1:ℚ), 0)])[0]? = some (1, 0) ∧ ([(1/2 : ℚ)])[0]? = some (1/2) ∧
    (0:ℚ) < 1 ∧ 2 ≤ (gridCount 1 0 (1/2)).toNat ∧
    (∃ g, (dof_range [((1:ℚ), 0)] [1/2])[0]? = some g ∧
      g.length = (gridCount 1 0 (1/2)).toNat ∧
      g.head? = some 1 ∧ g.getLast? = some 0 ∧ g.Pairwise (· ≥ ·)) :=
  ⟨rfl, rfl, by norm_num, by with_unfolding_all decide,
    inverted_bounds_grid_processed [((1:ℚ), 0)] [1/2] 0 1 0 (1/2) rfl rfl
      (by norm_num) (by with_unfolding_all decide)⟩

/-- C9: during the primary (collect-all) pass the rail forward-kinematics
collaborator is invoked exactly once per element of the Cartesian product
of the per-DOF grids for each tool-pose candidate, i.e.
`(product of grid sizes) × (number of candidates)` times; concretely,
grid sizes `3` and `4` with `2` candidates give exactly `24`
invocations. -/
theorem primary_pass_fk_invocations (S : DescartesRailedSampler P)
    (tool_poses : List P) (dr : List (List ℚ)) (st : SampleState) :
    ((samplePrimary S tool_poses dr st).fkCalls =
      st.fkCalls + tool_poses.length * (dr.map List.length).prod) ∧
    ((dof_range cfgC9.railed_limits cfgC9.railed_sample_resolution).map
        List.length = [3, 4] ∧
      (samplePrimary cfgC9 (cfgC9.tool_pose_sampler cfgC9.tool_pose)
        (dof_range cfgC9.railed_limits cfgC9.railed_sample_resolution)
        (initState [])).fkCalls = 24) :=
  ⟨samplePrimary_fkCalls S tool_poses dr st, by with_unfolding_all decide⟩

/-- C7: when the robot-frame target pose for a rail sample point has
translation norm strictly greater than the configured reach, the
inverse-kinematics collaborator is not invoked for that point — the
whole per-point step returns with only the forward-kinematics counter
advanced, so the reach check runs before (and suppresses) the IK call. -/
theorem reach_prefilter_blocks_ik (S : DescartesRailedSampler P) (p : P)
    (railed_pose : List ℚ) (b : Bool) (st : SampleState) (tf : P)
    (hfk : S.railed_calcFwdKin railed_pose = some tf)
    (hreach : S.geom.transNorm (S.geom.comp (S.geom.inv tf) p) >
      S.robot_reach) :
    (ikAt S p railed_pose b st).ikCalls = st.ikCalls ∧
    ikAt S p railed_pose b st = { st with fkCalls := st.fkCalls + 1 } := by
  constructor <;> simp [ikAt, hfk, hreach]

/-- Witness for `reach_prefilter_blocks_ik`: in `cfgC7` the robot-frame
pose has translation norm `5 > 1 = reach`, and the IK counter stays
at `0`. -/
theorem reach_prefilter_blocks_ik_witness :
    cfgC7.railed_calcFwdKin [1/2] = some () ∧
    cfgC7.geom.transNorm (cfgC7.geom.comp (cfgC7.geom.inv ()) ()) >
      cfgC7.robot_reach ∧
    (ikAt cfgC7 () [1/2] false (initState [])).ikCalls =
      (initState []).ikCalls :=
  ⟨rfl, by norm_num [cfgC7, cfgBase, unitGeom],
    (reach_prefilter_blocks_ik cfgC7 () [1/2] false (initState []) () rfl
      (by norm_num [cfgC7, cfgBase, unitGeom])).1⟩

/-- C1 is violated by the code (code bug): `getBestSolution` initialises
its running best to `std::numeric_limits<double>::min()` — the smallest
*positive* double (`2^(-1022)`), not the lowest — so no negative
clearance can ever satisfy the strict-improvement test.  In the spec's
scenario 3 (grid `[1/2, 1]`, every branch valid but colliding,
clearances `-1/10` at rail `1/2` and `-1/20` at rail `1`, collision
tolerated) the claim promises the rail `1` solution; the code returns an
empty Solution Set and `false`.  `ikCalls = 4` records that both rail
points produced IK branches in both passes, so reach-satisfying valid
configurations were indeed visited. -/
theorem fallback_negative_clearances_returns_empty :
    (sample cfgC1 []).fst = false ∧
    (sample cfgC1 []).snd.solution_set = [] ∧
    (sample cfgC1 []).snd.ikCalls = 4 := by
  with_unfolding_all decide

/-- C10: the search never removes entries from the caller-supplied buffer
(the initial contents survive, in order, in the final buffer), and when
the buffer is already non-empty on entry the operation returns `true`
and the fallback best-only pass is never run — the final state is
exactly the collect-all pass's state. -/
theorem sample_never_removes_entries (S : DescartesRailedSampler P)
    (init : List (List ℚ)) :
    init.Sublist ((sample S init).snd.solution_set) ∧
    (init ≠ [] →
      (sample S init).fst = true ∧
      (sample S init).snd =
        samplePrimary S (S.tool_pose_sampler S.tool_pose)
          (dof_range S.railed_limits S.railed_sample_resolution)
          (initState init)) := by
  obtain ⟨d, hd⟩ := samplePrimary_append S (S.tool_pose_sampler S.tool_pose)
    (dof_range S.railed_limits S.railed_sample_resolution) (initState init)
  by_cases hinit : init = []
  · subst hinit
    exact ⟨List.nil_sublist _, fun h => absurd rfl h⟩
  · have hne : (samplePrimary S (S.tool_pose_sampler S.tool_pose)
        (dof_range S.railed_limits S.railed_sample_resolution)
        (initState init)).solution_set.isEmpty = false := by
      rw [hd]
      cases init with
      | nil => exact absurd rfl hinit
      | cons x xs => simp [initState]
    have hsnd : (sample S init).snd =
        samplePrimary S (S.tool_pose_sampler S.tool_pose)
          (dof_range S.railed_limits S.railed_sample_resolution)
          (initState init) := by
      simp only [sample, hne, Bool.false_and]
      rw [if_neg Bool.false_ne_true]
    have hfst : (sample S init).fst = true := by
      simp only [sample, hne, Bool.false_and]
      rw [if_neg Bool.false_ne_true, hne]
      rfl
    refine ⟨?_, fun _ => ⟨hfst, hsnd⟩⟩
    rw [hsnd, hd]
    have hin : (initState init).solution_set = init := rfl
    rw [hin]
    exact List.sublist_append_left init d

/-- Witness for `sample_never_removes_entries`: a pre-populated buffer
holding the single entry `[5]` survives and forces success. -/
theorem sample_never_removes_entries_witness :
    [[(5:ℚ)]] ≠ [] ∧ (sample cfgC10 [[(5:ℚ)]]).fst = true ∧
    List.Sublist [[(5:ℚ)]] ((sample cfgC10 [[(5:ℚ)]]).snd.solution_set) :=
  ⟨by simp,
    ((sample_never_removes_entries cfgC10 [[(5:ℚ)]]).2 (by simp)).1,
    (sample_never_removes_entries cfgC10 [[(5:ℚ)]]).1⟩

/-! ## Collect-all retention discipline (C6) -/

/-- In collect-all mode a branch step only ever appends a solution that
passed both `is_valid_` and `isCollisionFree`. -/
theorem ikAtBranch_collect_validpred (S : DescartesRailedSampler P)
    (sp packed : List ℚ) (st : SampleState) (i : ℕ)
    (h : ∀ s ∈ st.solution_set,
      S.is_valid s = true ∧ isCollisionFree S s = true) :
    ∀ s ∈ (ikAtBranch S sp packed false st i).solution_set,
      S.is_valid s = true ∧ isCollisionFree S s = true := by
  unfold ikAtBranch
  dsimp only
  split
  · exact h
  · split
    · split
      · rename_i hvalid hb hfree
        intro s hs
        rcases List.mem_append.1 hs with hs | hs
        · exact h s hs
        · rw [List.mem_singleton.1 hs]
          exact ⟨by simpa using hvalid, hfree⟩
      · exact h
    · simp_all

/-- C6: every Full Joint Solution retained by the collect-all pass
(started on an empty Solution Set) satisfies the injected validity
predicate and is collision-free, where `isCollisionFree` treats an
absent collision capability as collision-free. -/
theorem collect_retained_valid_and_collision_free
    (S : DescartesRailedSampler P) (tool_poses : List P)
    (dr : List (List ℚ)) :
    ∀ s ∈ (samplePrimary S tool_poses dr (initState [])).solution_set,
      S.is_valid s = true ∧ isCollisionFree S s = true := by
  exact samplePrimary_preserve
    (fun sols _ => ∀ s ∈ sols,
      S.is_valid s = true ∧ isCollisionFree S s = true)
    S tool_poses dr
    (fun sp _ packed st i _ hq => ikAtBranch_collect_validpred S sp packed st i hq)
    (initState []) (fun s hs => absurd hs (List.not_mem_nil s))

/-- Witness for `collect_retained_valid_and_collision_free`: in the base
fixture the collect-all pass retains `[1/2, 0]`, which is valid and
collision-free. -/
theorem collect_retained_valid_witness :
    cfgC6.is_valid [1/2, 0] = true ∧ isCollisionFree cfgC6 [1/2, 0] = true :=
  collect_retained_valid_and_collision_free cfgC6 [()]
    (dof_range cfgC6.railed_limits cfgC6.railed_sample_resolution)
    [1/2, 0] (by with_unfolding_all decide)

/-! ## Solution block lengths and the success criterion (C8) -/

/-- In either mode a branch step only inserts the concatenation of the
rail sample point (`railed_pose.size()` scalars) and one full IK branch
(`robot_dof` scalars). -/
theorem ikAtBranch_entry_length (S : DescartesRailedSampler P)
    (sp packed : List ℚ) (b : Bool) (st : SampleState) (i : ℕ)
    (hsp : sp.length = S.railed_numJoints)
    (hi : i < packed.length / S.robot_numJoints)
    (h : ∀ s ∈ st.solution_set, s.length = S.dof) :
    ∀ s ∈ (ikAtBranch S sp packed b st i).solution_set,
      s.length = S.dof := by
  have hfull : (sp ++ branchAt S.robot_numJoints packed i).length = S.dof := by
    rw [List.length_append, hsp, branchAt_length _ _ _ hi]
    rfl
  unfold ikAtBranch
  dsimp only
  split
  · exact h
  · split
    · split
      · intro s hs
        rcases List.mem_append.1 hs with hs | hs
        · exact h s hs
        · rw [List.mem_singleton.1 hs]; exact hfull
      · exact h
    · split
      · exact h
      · split
        · intro s hs
          rcases List.mem_cons.1 hs with hs | hs
          · rw [hs]; exact hfull
          · exact h s hs
        · exact h

/-- The grid has one sequence per rail DOF when limits and resolutions
both have `railed_numJoints` entries. -/
theorem dof_range_length (limits : List (ℚ × ℚ)) (res : List ℚ) (n : ℕ)
    (hlim : limits.length = n) (hres : res.length = n) :
    (dof_range limits res).length = n := by
  simp [dof_range, hlim, hres]

/-- C8: starting from an empty Solution Set, `sample` returns `true` iff
the Solution Set is non-empty on return; every retained entry is one
Full Joint Solution of exactly `dof = railDOF + robotDOF` scalars, so
the flat buffer length is an exact multiple of `dof`. -/
theorem sample_success_iff_and_block_lengths (S : DescartesRailedSampler P)
    (hlim : S.railed_limits.length = S.railed_numJoints)
    (hres : S.railed_sample_resolution.length = S.railed_numJoints) :
    ((sample S []).fst = true ↔ (sample S []).snd.solution_set ≠ []) ∧
    (∀ s ∈ (sample S []).snd.solution_set, s.length = S.dof) ∧
    ((sample S []).snd.solution_set.map List.length).sum =
      (sample S []).snd.solution_set.length * S.dof := by
  have hdr : (dof_range S.railed_limits S.railed_sample_resolution).length =
      S.railed_numJoints := dof_range_length _ _ _ hlim hres
  have hlen : ∀ s ∈ (sample S []).snd.solution_set, s.length = S.dof := by
    have hbr0 : ∀ (b : Bool) (sp : List ℚ), sp.length =
        (dof_range S.railed_limits S.railed_sample_resolution).length →
        ∀ (packed : List ℚ) (st : SampleState) (i : ℕ),
        i < packed.length / S.robot_numJoints →
        (∀ s ∈ st.solution_set, s.length = S.dof) →
        ∀ s ∈ (ikAtBranch S sp packed b st i).solution_set,
          s.length = S.dof := by
      intro b sp hsp packed st i hi hq
      exact ikAtBranch_entry_length S sp packed b st i (hdr ▸ hsp) hi hq
    have h1 : ∀ s ∈ (samplePrimary S (S.tool_pose_sampler S.tool_pose)
        (dof_range S.railed_limits S.railed_sample_resolution)
        (initState [])).solution_set, s.length = S.dof :=
      samplePrimary_preserve (fun sols _ => ∀ s ∈ sols, s.length = S.dof)
        S _ _ (hbr0 false) (initState [])
        (fun s hs => absurd hs (List.not_mem_nil s))
    have h2 : ∀ s ∈ (getBestSolution S (S.tool_pose_sampler S.tool_pose)
        (dof_range S.railed_limits S.railed_sample_resolution)
        (samplePrimary S (S.tool_pose_sampler S.tool_pose)
          (dof_range S.railed_limits S.railed_sample_resolution)
          (initState []))).solution_set, s.length = S.dof :=
      getBestSolution_preserve (fun sols _ => ∀ s ∈ sols, s.length = S.dof)
        S _ _ (hbr0 true) _ h1
    show ∀ s ∈ (sample S []).snd.solution_set, s.length = S.dof
    simp only [sample]
    split
    · exact h2
    · exact h1
  refine ⟨?_, hlen, ?_⟩
  · have key : (sample S []).fst =
        !(sample S []).snd.solution_set.isEmpty := rfl
    rw [key]
    rcases hc : (sample S []).snd.solution_set with _ | ⟨x, xs⟩ <;> simp
  · have hmap : (sample S []).snd.solution_set.map List.length =
        List.replicate (sample S []).snd.solution_set.length S.dof := by
      rw [← List.map_const]
      exact List.map_congr_left (fun s hs => hlen s hs)
    rw [hmap, List.sum_replicate, smul_eq_mul]

/-- Witness for `sample_success_iff_and_block_lengths`: the base fixture
succeeds, and its first retained block `[1/2, 0]` has `dof = 2`
scalars. -/
theorem sample_success_iff_witness :
    cfgC8.railed_limits.length = cfgC8.railed_numJoints ∧
    ((sample cfgC8 []).fst = true ↔
      (sample cfgC8 []).snd.solution_set ≠ []) ∧
    ([(1:ℚ)/2, 0].length = cfgC8.dof) :=
  ⟨rfl, (sample_success_iff_and_block_lengths cfgC8 rfl rfl).1,
    (sample_success_iff_and_block_lengths cfgC8 rfl rfl).2.1 [1/2, 0]
      (by with_unfolding_all decide)⟩

/-! ## Best-only pass discipline (C2) -/

/-- One best-mode branch step preserves the invariant: the buffer's
clearances are strictly decreasing front to back, and the tracker bounds
them all.  A new solution is inserted (at the front, without removing
anything) only when its clearance strictly exceeds the tracker. -/
theorem ikAtBranch_best_inv (S : DescartesRailedSampler P)
    (sp packed : List ℚ) (st : SampleState) (i : ℕ)
    (h1 : (st.solution_set.map (clearance S)).Pairwise (· > ·))
    (h2 : ∀ s ∈ st.solution_set, clearance S s ≤ st.distance) :
    ((ikAtBranch S sp packed true st i).solution_set.map
      (clearance S)).Pairwise (· > ·) ∧
    ∀ s ∈ (ikAtBranch S sp packed true st i).solution_set,
      clearance S s ≤ (ikAtBranch S sp packed true st i).distance := by
  unfold ikAtBranch
  dsimp only
  split
  · exact ⟨h1, h2⟩
  · split
    · simp_all
    · split
      · exact ⟨h1, h2⟩
      · rename_i c hc
        split
        · rename_i hgt
          have hcl : clearance S (sp ++ branchAt S.robot_numJoints packed i) =
              c.distance (sp ++ branchAt S.robot_numJoints packed i)
                (sp ++ branchAt S.robot_numJoints packed i).length := by
            unfold clearance; rw [hc]
          constructor
          · rw [List.map_cons]
            refine List.Pairwise.cons ?_ h1
            intro q hq
            obtain ⟨s, hs, rfl⟩ := List.mem_map.1 hq
            rw [hcl]
            exact lt_of_le_of_lt (h2 s hs) hgt
          · intro s hs
            rcases List.mem_cons.1 hs with hs | hs
            · rw [hs, hcl]
            · exact le_trans (h2 s hs) (le_of_lt hgt)
        · exact ⟨h1, h2⟩

/-- C2 (amended): in best-only mode an accepted solution is inserted at
the *front* of the Solution Set without removing previous entries, and
this happens only when its clearance strictly exceeds the Best-Clearance
Tracker.  Hence, starting from an empty set, the entries' clearances are
strictly decreasing from the front (the front entry is the unique best
so far) and the tracker bounds every retained clearance — but the set
may hold more than one entry, contradicting the claim's
"at most one". -/
theorem best_only_front_strict_improvement (S : DescartesRailedSampler P)
    (tool_poses : List P) (dr : List (List ℚ)) (st : SampleState)
    (hempty : st.solution_set = []) :
    ((getBestSolution S tool_poses dr st).solution_set.map
        (clearance S)).Pairwise (· > ·) ∧
    ∀ s ∈ (getBestSolution S tool_poses dr st).solution_set,
      clearance S s ≤ (getBestSolution S tool_poses dr st).distance :=
  getBestSolution_preserve
    (fun sols d => (sols.map (clearance S)).Pairwise (· > ·) ∧
      ∀ s ∈ sols, clearance S s ≤ d)
    S tool_poses dr
    (fun sp _ packed st i _ hq => ikAtBranch_best_inv S sp packed st i hq.1 hq.2)
    st ⟨by rw [hempty]; exact List.Pairwise.nil,
      by rw [hempty]; intro s hs; cases hs⟩

/-- Witness for `best_only_front_strict_improvement`, on the run that
accepts twice (clearances `1` then `2`). -/
theorem best_only_front_strict_improvement_witness :
    ((getBestSolution cfgC2 [()]
        (dof_range cfgC2.railed_limits cfgC2.railed_sample_resolution)
        (initState [])).solution_set.map (clearance cfgC2)).Pairwise (· > ·) ∧
    clearance cfgC2 [1, 0] ≤
      (getBestSolution cfgC2 [()]
        (dof_range cfgC2.railed_limits cfgC2.railed_sample_resolution)
        (initState [])).distance :=
  ⟨(best_only_front_strict_improvement cfgC2 [()] _ (initState []) rfl).1,
    (best_only_front_strict_improvement cfgC2 [()] _ (initState []) rfl).2
      [1, 0] (by with_unfolding_all decide)⟩

/-- Counterexample to C2 as stated: with every branch colliding and
positive clearances `1` (rail `1/2`) then `2` (rail `1`), the best-only
fallback accepts twice; the second accept inserts at the front without
clearing, so the Solution Set ends holding TWO entries — the claim says
it holds at most one at every point of the search. -/
theorem best_only_two_entries_cex :
    (sample cfgC2 []).snd.solution_set = [[1, 0], [1/2, 0]] ∧
    (sample cfgC2 []).snd.solution_set.length = 2 := by
  with_unfolding_all decide

/-! ## The best-only pass and an absent collision capability (C5)

With no collision interface, `isCollisionFree` accepts everything, so
the collect-all pass retains every valid reach-satisfying branch.  The
fallback runs only when that pass retained nothing — in which case no
branch anywhere passes the validity test, and the best-only per-branch
code (which would dereference the null interface) is never reached. -/

/-- The collect-all per-branch step never touches the
absent-distance-query count; lifted versions follow. -/
theorem ikAt_collect_absent (S : DescartesRailedSampler P) (p : P)
    (rp : List ℚ) (st : SampleState) :
    (ikAt S p rp false st).absentDistanceQueries =
      st.absentDistanceQueries := by
  unfold ikAt
  dsimp only
  split
  · rfl
  · split
    · rfl
    · split
      · rfl
      · rename_i packed hpk
        apply foldl_preserve
          (fun a => a.absentDistanceQueries = st.absentDistanceQueries)
          (ikAtBranch S rp packed false)
          (fun a i ha => by
            show (ikAtBranch S rp packed false a i).absentDistanceQueries =
              st.absentDistanceQueries
            rw [ikAtBranch_collect_absent]; exact ha)
        rfl

theorem nested_ik_collect_absent (S : DescartesRailedSampler P) (p : P) :
    ∀ (dr : List (List ℚ)) (sp : List ℚ) (st : SampleState),
    (nested_ik S dr p sp false st).absentDistanceQueries =
      st.absentDistanceQueries := by
  intro dr
  induction dr with
  | nil => intro sp st; exact ikAt_collect_absent S p sp st
  | cons range rest ih =>
    intro sp st
    simp only [nested_ik]
    apply foldl_preserve
      (fun a => a.absentDistanceQueries = st.absentDistanceQueries)
      (fun a v => nested_ik S rest p (sp ++ [v]) false a)
      (fun a v ha => by rw [ih (sp ++ [v]) a]; exact ha)
    rfl

theorem samplePrimary_absent (S : DescartesRailedSampler P)
    (tool_poses : List P) (dr : List (List ℚ)) (st : SampleState) :
    (samplePrimary S tool_poses dr st).absentDistanceQueries =
      st.absentDistanceQueries := by
  apply foldl_preserve
    (fun a => a.absentDistanceQueries = st.absentDistanceQueries)
    (fun a tp => nested_ik S dr (toRailFrame S tp) [] false a)
    (fun a tp ha => by
      rw [nested_ik_collect_absent S (toRailFrame S tp) dr [] a]; exact ha)
  rfl

/-- A valid, collision-free branch is appended by the collect step. -/
theorem ikAtBranch_collect_valid_eq (S : DescartesRailedSampler P)
    (sp packed : List ℚ) (st : SampleState) (i : ℕ)
    (hv : S.is_valid (sp ++ branchAt S.robot_numJoints packed i) = true)
    (hfree : isCollisionFree S
      (sp ++ branchAt S.robot_numJoints packed i) = true) :
    ikAtBranch S sp packed false st i =
      { st with solution_set :=
          st.solution_set ++ [sp ++ branchAt S.robot_numJoints packed i] } := by
  unfold ikAtBranch
  simp [hv, hfree]

/-- An invalid branch is skipped in either mode. -/
theorem ikAtBranch_invalid_eq (S : DescartesRailedSampler P)
    (sp packed : List ℚ) (b : Bool) (st : SampleState) (i : ℕ)
    (hv : S.is_valid (sp ++ branchAt S.robot_numJoints packed i) = false) :
    ikAtBranch S sp packed b st i = st := by
  unfold ikAtBranch
  simp [hv]

/-- Branch-level coupling: with no collision interface, if the collect
step did not grow the buffer then the branch was invalid, so the best
step does not query the (absent) distance capability. -/
theorem ikAtBranch_couple (S : DescartesRailedSampler P)
    (hnone : S.collision = none) (sp packed : List ℚ) (i : ℕ)
    (a c : SampleState)
    (h : (ikAtBranch S sp packed false a i).solution_set = a.solution_set) :
    (ikAtBranch S sp packed true c i).absentDistanceQueries =
      c.absentDistanceQueries := by
  rcases hv : S.is_valid (sp ++ branchAt S.robot_numJoints packed i) with _ | _
  · rw [ikAtBranch_invalid_eq S sp packed true c i hv]
  · exfalso
    have hfree : isCollisionFree S
        (sp ++ branchAt S.robot_numJoints packed i) = true := by
      unfold isCollisionFree; rw [hnone]
    rw [ikAtBranch_collect_valid_eq S sp packed a i hv hfree] at h
    simp at h

/-- Coupled fold: if every step of the first fold only appends, and a
step of the first fold that appends nothing forces the matching step of
the second fold to keep the query count, then a first fold that appends
nothing overall forces the second fold to keep the query count. -/
theorem foldl_couple {β : Type} (f1 f2 : SampleState → β → SampleState)
    (m1 : ∀ a b, ∃ d, (f1 a b).solution_set = a.solution_set ++ d)
    (key : ∀ b a c, (f1 a b).solution_set = a.solution_set →
      (f2 c b).absentDistanceQueries = c.absentDistanceQueries) :
    ∀ (l : List β) (a c : SampleState),
      (l.foldl f1 a).solution_set = a.solution_set →
      (l.foldl f2 c).absentDistanceQueries = c.absentDistanceQueries := by
  intro l
  induction l with
  | nil => intro a c _; rfl
  | cons x t ih =>
    intro a c h
    obtain ⟨d, hd⟩ := m1 a x
    obtain ⟨d2, hd2⟩ := foldl_append_sols f1 m1 t (f1 a x)
    rw [List.foldl_cons] at h
    rw [hd2, hd, List.append_assoc] at h
    have hlen := congrArg List.length h
    simp only [List.length_append] at hlen
    have hd0 : d = [] := List.eq_nil_of_length_eq_zero (by omega)
    have hd20 : d2 = [] := List.eq_nil_of_length_eq_zero (by omega)
    have h1 : (f1 a x).solution_set = a.solution_set := by
      rw [hd, hd0, List.append_nil]
    have h3 : (t.foldl f1 (f1 a x)).solution_set =
        (f1 a x).solution_set := by
      rw [hd2, hd20, List.append_nil]
    rw [List.foldl_cons, ih (f1 a x) (f2 c x) h3, key x a c h1]

/-- Point-level coupling, lifted over the same gates (forward
kinematics, reach, inverse kinematics) that both passes evaluate
identically. -/
theorem ikAt_couple (S : DescartesRailedSampler P)
    (hnone : S.collision = none) (p : P) (sp : List ℚ)
    (a c : SampleState)
    (h : (ikAt S p sp false a).solution_set = a.solution_set) :
    (ikAt S p sp true c).absentDistanceQueries =
      c.absentDistanceQueries := by
  unfold ikAt at h ⊢
  dsimp only at h ⊢
  rcases hfk : S.railed_calcFwdKin sp with _ | tf
  · rfl
  · rw [hfk] at h
    dsimp only at h ⊢
    by_cases hre : S.geom.transNorm (S.geom.comp (S.geom.inv tf) p) >
        S.robot_reach
    · rw [if_pos hre]
    · rw [if_neg hre] at h ⊢
      rcases hik : S.robot_calcInvKin (S.geom.comp (S.geom.inv tf) p)
          S.ik_seed with _ | packed
      · rfl
      · rw [hik] at h
        dsimp only at h ⊢
        exact foldl_couple (ikAtBranch S sp packed false)
          (ikAtBranch S sp packed true)
          (ikAtBranch_collect_append S sp packed)
          (fun i a c hh => ikAtBranch_couple S hnone sp packed i a c hh)
          (List.range (packed.length / S.robot_numJoints)) _ _ h

theorem nested_ik_couple (S : DescartesRailedSampler P)
    (hnone : S.collision = none) (p : P) :
    ∀ (dr : List (List ℚ)) (sp : List ℚ) (a c : SampleState),
      (nested_ik S dr p sp false a).solution_set = a.solution_set →
      (nested_ik S dr p sp true c).absentDistanceQueries =
        c.absentDistanceQueries := by
  intro dr
  induction dr with
  | nil => intro sp a c h; exact ikAt_couple S hnone p sp a c h
  | cons range rest ih =>
    intro sp a c h
    simp only [nested_ik] at h ⊢
    exact foldl_couple (fun a v => nested_ik S rest p (sp ++ [v]) false a)
      (fun a v => nested_ik S rest p (sp ++ [v]) true a)
      (fun a v => nested_ik_collect_append S p rest (sp ++ [v]) a)
      (fun v a c hh => ih (sp ++ [v]) a c hh)
      range a c h

/-- C5 (amended, second half): with no collision capability the search
never executes `collision_->distance` on the null interface — the
best-only pass is reached only when the collect-all pass retained
nothing, which (with collisions vacuously free) means no branch was
valid, and invalid branches never reach the distance query. -/
theorem best_only_no_absent_distance_queries (S : DescartesRailedSampler P)
    (hnone : S.collision = none) :
    (sample S []).snd.absentDistanceQueries = 0 := by
  have h1 : (samplePrimary S (S.tool_pose_sampler S.tool_pose)
      (dof_range S.railed_limits S.railed_sample_resolution)
      (initState [])).absentDistanceQueries = 0 :=
    samplePrimary_absent S _ _ (initState [])
  have hsample : (sample S []).snd =
      (if (samplePrimary S (S.tool_pose_sampler S.tool_pose)
            (dof_range S.railed_limits S.railed_sample_resolution)
            (initState [])).solution_set.isEmpty && S.allow_collision then
        getBestSolution S (S.tool_pose_sampler S.tool_pose)
          (dof_range S.railed_limits S.railed_sample_resolution)
          (samplePrimary S (S.tool_pose_sampler S.tool_pose)
            (dof_range S.railed_limits S.railed_sample_resolution)
            (initState []))
      else
        samplePrimary S (S.tool_pose_sampler S.tool_pose)
          (dof_range S.railed_limits S.railed_sample_resolution)
          (initState [])) := rfl
  rw [hsample]
  split
  · rename_i hcond
    have hemp : (samplePrimary S (S.tool_pose_sampler S.tool_pose)
        (dof_range S.railed_limits S.railed_sample_resolution)
        (initState [])).solution_set = [] := by
      have hb := hcond
      rw [Bool.and_eq_true] at hb
      simpa using hb.1
    unfold getBestSolution
    have hcouple := foldl_couple
      (fun a tp => nested_ik S
        (dof_range S.railed_limits S.railed_sample_resolution)
        (toRailFrame S tp) [] false a)
      (fun a tp => nested_ik S
        (dof_range S.railed_limits S.railed_sample_resolution)
        (toRailFrame S tp) [] true a)
      (fun a tp => nested_ik_collect_append S (toRailFrame S tp)
        (dof_range S.railed_limits S.railed_sample_resolution) [] a)
      (fun tp a c hh => nested_ik_couple S hnone (toRailFrame S tp)
        (dof_range S.railed_limits S.railed_sample_resolution) [] a c hh)
      (S.tool_pose_sampler S.tool_pose) (initState [])
      { samplePrimary S (S.tool_pose_sampler S.tool_pose)
          (dof_range S.railed_limits S.railed_sample_resolution)
          (initState []) with distance := dblMin }
      hemp
    rw [hcouple]
    exact h1
  · exact h1

/-- Witness for `best_only_no_absent_distance_queries`. -/
theorem best_only_no_absent_distance_queries_witness :
    cfgC5.collision = none ∧
    (sample cfgC5 []).snd.absentDistanceQueries = 0 :=
  ⟨rfl, best_only_no_absent_distance_queries cfgC5 rfl⟩

/-- Counterexample to C5's first half: a best-only-capable request with
no collision capability is NOT detected as a configuration error — no
validation exists.  In `cfgC5` (`collision` null, collisions tolerated,
no branch valid) the sampling proceeds: the fallback pass runs (four
forward-kinematics calls: two grid points in each of the two passes) and
the call returns the ordinary negative result `false`. -/
theorem best_only_without_collision_runs_cex :
    cfgC5.collision = none ∧ cfgC5.allow_collision = true ∧
    (sample cfgC5 []).snd.fkCalls = 4 ∧
    (sample cfgC5 []).fst = false :=
  ⟨rfl, rfl, by with_unfolding_all decide, by with_unfolding_all decide⟩

end TesseractRailed
